import Mathlib

/-!
Shallow embedding of `src/minijinja/src/utils.rs` (the output-safety and
literal-decoding subsystem of the minijinja template engine).

Conventions of the embedding:

* Rust strings and byte slices are modelled as `List Nat`: for byte-level
  code (`HtmlEscape`, `memstr`) the entries are the UTF-8 bytes, for
  char-level code (`Unescaper`) the entries are Unicode code points.
  Overflow-free `Nat` is adequate because every source operation here stays
  within `u8`/`u16`/`char` ranges; where the source uses wrapping
  arithmetic (`u8::wrapping_sub`) the embedding writes the `% 256`
  explicitly.
* The output sink (`Output` in the source) is an append-only accumulator
  `List Nat`; `write_str`/`write!` never fail in the model (the sink's own
  I/O failure is external to this module).
* Fallible functions return `Except Error _`; a Rust panic is modelled as
  `Except.error ()` of a distinguished unit error.
-/

/-- Error kinds of the wider system that this module constructs
(`crate::error::ErrorKind`). -/
inductive ErrorKind
  | BadEscape
  | InvalidOperation
  | BadSerialization
  deriving DecidableEq, Repr

/-- Modelled from the spec: the wider system's error type, reduced to the
interface this module uses — a kind plus a message (`Error::new(kind, msg)`);
`ErrorKind::into()` produces a kind with an empty message. -/
structure Error where
  kind : ErrorKind
  message : String
  deriving DecidableEq, Repr

/-- The error produced by `ErrorKind::BadEscape.into()`. -/
def badEscape : Error := { kind := ErrorKind.BadEscape, message := "" }

/-! ## Search helpers (`memstr`, source lines 46-50)

`haystack.windows(needle.len()).position(|window| window == needle)`.
`slice::windows(size)` panics when `size == 0`; the panic is modelled as
`Except.error ()`. -/

/-- The list of sliding windows of width `size` over `l`, as produced by
Rust `slice::windows` for `size ≥ 1`: one window per position while a full
window still fits. -/
def windowsGo (size : Nat) : List Nat → List (List Nat)
  | [] => []
  | a :: l =>
    if size ≤ (a :: l).length then (a :: l).take size :: windowsGo size l
    else []

/-- Embedding of `memstr`: first index whose window equals the needle.
The zero-size-window panic of `slice::windows` is the `Except.error ()`
branch. -/
def memstr (haystack needle : List Nat) : Except Unit (Option Nat) :=
  if needle.length = 0 then Except.error ()
  else Except.ok (List.findIdx? (fun w => w == needle) (windowsGo needle.length haystack))

/-! ## HTML entity escaper (`HtmlEscape::fmt`, source lines 132-176)

The source scans the byte slice with an index `i`, keeps the start `start`
of the not-yet-flushed unescaped run, and on each of the six reserved
bytes flushes `bytes[start..i]`, writes the entity, and sets
`start = i + 1`; after the loop it flushes `bytes[start..]`. -/

/-- Byte values of the six reserved characters. -/
def bLt : Nat := 0x3C
def bGt : Nat := 0x3E
def bAmp : Nat := 0x26
def bQuot : Nat := 0x22
def bApos : Nat := 0x27
def bSlash : Nat := 0x2F

/-- UTF-8 bytes of the replacement entities. -/
def entLt : List Nat := [0x26, 0x6C, 0x74, 0x3B]
def entGt : List Nat := [0x26, 0x67, 0x74, 0x3B]
def entAmp : List Nat := [0x26, 0x61, 0x6D, 0x70, 0x3B]
def entQuot : List Nat := [0x26, 0x71, 0x75, 0x6F, 0x74, 0x3B]
def entApos : List Nat := [0x26, 0x23, 0x78, 0x32, 0x37, 0x3B]
def entSlash : List Nat := [0x26, 0x23, 0x78, 0x32, 0x66, 0x3B]

/-- The source's fast range filter `b.wrapping_sub(b'"') <= b'>' - b'"'`
on a byte `b`, with `u8` wrapping subtraction written out. -/
def inEscRange (b : Nat) : Bool := (b + 256 - 0x22) % 256 ≤ 0x3E - 0x22

/-- The entity table of the inner `match *b`: the six reserved bytes map to
their entity byte strings; every other byte falls through (`_ => ()`). -/
def escEntity (b : Nat) : Option (List Nat) :=
  if b = bLt then some entLt
  else if b = bGt then some entGt
  else if b = bAmp then some entAmp
  else if b = bQuot then some entQuot
  else if b = bApos then some entApos
  else if b = bSlash then some entSlash
  else none

/-- Rust slice `l[s..e]`. -/
def sliceBytes (l : List Nat) (s e : Nat) : List Nat := (l.take e).drop s

/-- The byte loop of `HtmlEscape::fmt`. `suffix` is the part of `bytes` not
yet visited, `i` the index of its head, `start` the start of the current
unescaped run, `acc` everything written to the formatter so far. The final
clause is the trailing `if start < bytes.len()` flush. -/
def htmlEscapeGo (bytes : List Nat) : List Nat → Nat → Nat → List Nat → List Nat
  | [], _, start, acc =>
    acc ++ (if start < bytes.length then sliceBytes bytes start bytes.length else [])
  | b :: suffix, i, start, acc =>
    if inEscRange b then
      match escEntity b with
      | some ent =>
        htmlEscapeGo bytes suffix (i + 1) (i + 1)
          (acc ++ (if start < i then sliceBytes bytes start i else []) ++ ent)
      | none => htmlEscapeGo bytes suffix (i + 1) start acc
    else htmlEscapeGo bytes suffix (i + 1) start acc

/-- Embedding of `HtmlEscape(s)` rendered to its output bytes. -/
def HtmlEscape (s : List Nat) : List Nat := htmlEscapeGo s s 0 0 []

/-- Modelled from the spec: the character-by-character transformation the
spec describes — each of the six reserved characters becomes its entity and
every other character is copied unchanged. Stated on bytes, which agrees
with the character-level wording because the six reserved characters are
single-byte ASCII and UTF-8 bytes of non-ASCII characters are all
`≥ 0x80`. -/
def escByteSpec (b : Nat) : List Nat :=
  match escEntity b with
  | some ent => ent
  | none => [b]

/-- Modelled from the spec: `HtmlEscape` as the spec words it, the
concatenation of the per-character images. -/
def HtmlEscapeSpec (s : List Nat) : List Nat := s.flatMap escByteSpec

/-! ## Literal unescaper (`Unescaper`, source lines 178-258) -/

/-- Unescaper state: output buffer (code points) plus the pending
high-surrogate slot, `0` meaning none pending. -/
structure Unescaper where
  out : List Nat
  pending_surrogate : Nat
  deriving DecidableEq, Repr

/-- Embedding of `Unescaper::push_char`: appending a literal character
fails while a surrogate is pending. -/
def push_char (u : Unescaper) (c : Nat) : Except Error Unescaper :=
  if u.pending_surrogate ≠ 0 then Except.error badEscape
  else Except.ok { u with out := u.out ++ [c] }

/-- The source's surrogate-range test `(0xD800..=0xDFFF).contains(&c)`. -/
def isSurrogate (c : Nat) : Bool := 0xD800 ≤ c ∧ c ≤ 0xDFFF

/-- `char::decode_utf16(once(c)).next()` for one unit: a non-surrogate
`u16` decodes to itself, a lone surrogate is an unpaired-surrogate error
(`none`). -/
def decodeUtf16One (c : Nat) : Option Nat :=
  if 0xD800 ≤ c ∧ c ≤ 0xDFFF then none else some c

/-- `char::decode_utf16(once(hi).chain(once(lo))).next()` for two surrogate
units: a high unit followed by a low unit combines to
`0x10000 + (hi - 0xD800) * 0x400 + (lo - 0xDC00)`, anything else is an
error. -/
def decodeUtf16Pair (hi lo : Nat) : Option Nat :=
  if 0xD800 ≤ hi ∧ hi ≤ 0xDBFF ∧ 0xDC00 ≤ lo ∧ lo ≤ 0xDFFF then
    some (0x10000 + (hi - 0xD800) * 0x400 + (lo - 0xDC00))
  else none

/-- Embedding of `Unescaper::push_u16`, the four-armed match on
`(self.pending_surrogate, (0xD800..=0xDFFF).contains(&c))`. -/
def push_u16 (u : Unescaper) (c : Nat) : Except Error Unescaper :=
  if u.pending_surrogate = 0 then
    if isSurrogate c then Except.ok { u with pending_surrogate := c }
    else
      match decodeUtf16One c with
      | some ch => Except.ok { u with out := u.out ++ [ch] }
      | none => Except.error badEscape
  else
    if isSurrogate c then
      match decodeUtf16Pair u.pending_surrogate c with
      | some ch => Except.ok { out := u.out ++ [ch], pending_surrogate := 0 }
      | none => Except.error badEscape
    else Except.error badEscape

/-- `char::to_digit(16)` on a code point, as used by `u16::from_str_radix`
digit conversion. -/
def hexDigitVal (c : Nat) : Option Nat :=
  if 0x30 ≤ c ∧ c ≤ 0x39 then some (c - 0x30)
  else if 0x61 ≤ c ∧ c ≤ 0x66 then some (c - 0x61 + 10)
  else if 0x41 ≤ c ∧ c ≤ 0x46 then some (c - 0x41 + 10)
  else none

/-- One step of the digit-accumulation loop of `u16::from_str_radix` with
radix 16 and the `u16` overflow check (`checked_mul`/`checked_add` against
`2^16`); a non-digit character or an earlier failure yields `none`. -/
def hexAccStep (acc : Option Nat) (c : Nat) : Option Nat :=
  match acc, hexDigitVal c with
  | some a, some d => if a * 16 + d < 0x10000 then some (a * 16 + d) else none
  | _, _ => none

/-- The digit-accumulation loop of `u16::from_str_radix`. -/
def parseDigits (cs : List Nat) : Option Nat := cs.foldl hexAccStep (some 0)

/-- Embedding of `u16::from_str_radix(s, 16)` on the code points of `s`:
an optional leading `+` sign (`0x2B`), a lone sign or an empty string is an
error, a `-` sign is not accepted for an unsigned target and falls through
to digit conversion where it fails. Together with `pad4` this is
`Unescaper::parse_u16`. -/
def parse_u16 (cs : List Nat) : Option Nat :=
  match cs with
  | [] => none
  | a :: rest =>
    if a = 0x2B then
      if rest = [] then none else parseDigits rest
    else parseDigits (a :: rest)

/-- `chars.chain(repeat('\0')).take(4)`: the next four characters of the
iterator, padded with the NUL sentinel when the input runs out. -/
def pad4 (cs : List Nat) : List Nat := (cs ++ [0, 0, 0, 0]).take 4

/-- The end-of-input step of `Unescaper::unescape`: after the loop, a
still-pending surrogate is an error, otherwise the buffer is returned. -/
def unescapeEnd (u : Unescaper) : Except Error (List Nat) :=
  if u.pending_surrogate ≠ 0 then Except.error badEscape else Except.ok u.out

/-- The short-escape arms of the `match d` in `Unescaper::unescape`
(everything except `u`): `" \ / '` append themselves, `b f n r t` append
their control characters, any other letter is `BadEscape`. -/
def applyShort (u : Unescaper) (d : Nat) : Except Error Unescaper :=
  if d = 0x22 ∨ d = 0x5C ∨ d = 0x2F ∨ d = 0x27 then push_char u d
  else if d = 0x62 then push_char u 0x08
  else if d = 0x66 then push_char u 0x0C
  else if d = 0x6E then push_char u 0x0A
  else if d = 0x72 then push_char u 0x0D
  else if d = 0x74 then push_char u 0x09
  else Except.error badEscape

/-- The `u` arm of `Unescaper::unescape`:
`let val = ok!(self.parse_u16(&mut char_iter)); ok!(self.push_u16(val))`,
applied to the four (sentinel-padded) characters taken from the
iterator. -/
def applyU (u : Unescaper) (hexnum : List Nat) : Except Error Unescaper :=
  match parse_u16 hexnum with
  | none => Except.error badEscape
  | some val => push_u16 u val

/-- Embedding of `Unescaper::unescape`, the main decode loop, on the state
`u` and the remaining input. The `u` escape is tested before the other
escape letters (the cases are disjoint, so this agrees with the source's
`match d`) so that the four characters `parse_u16` consumes from the shared
iterator can be split off structurally; when fewer than four characters
remain, the iterator is exhausted afterwards and the loop continues
directly with the end-of-input step. -/
def unescapeGo : Unescaper → List Nat → Except Error (List Nat)
  | u, [] => unescapeEnd u
  | u, c :: rest =>
    if c = 0x5C then
      match rest with
      | [] => Except.error badEscape
      | d :: rest2 =>
        if d = 0x75 then
          match rest2 with
          | c1 :: c2 :: c3 :: c4 :: rest3 =>
            match applyU u (pad4 (c1 :: c2 :: c3 :: c4 :: rest3)) with
            | Except.error e => Except.error e
            | Except.ok u2 => unescapeGo u2 rest3
          | shortRest =>
            match applyU u (pad4 shortRest) with
            | Except.error e => Except.error e
            | Except.ok u2 => unescapeEnd u2
        else
          match applyShort u d with
          | Except.error e => Except.error e
          | Except.ok u2 => unescapeGo u2 rest2
    else
      match push_char u c with
      | Except.error e => Except.error e
      | Except.ok u2 => unescapeGo u2 rest

/-- Embedding of the public `unescape`: fresh state, then the loop. -/
def unescape (s : List Nat) : Except Error (List Nat) :=
  unescapeGo { out := [], pending_surrogate := 0 } s

/-! ## Escape-mode dispatcher (`write_escaped`, source lines 52-97)

The value type, its kind classification, `as_str`, the safe/plain string
marking and the default `Display` stringification live in the value module
of the repository, outside this file's source; they are modelled from the
spec's interface description (section 6: `kind()`, `as_str()`, a default
stringification, and a binary safety flag on strings). -/

/-- `StringType` of the value representation: a string is either plain
(`Normal`) or author-marked safe (`Safe`). -/
inductive StringType
  | Normal
  | Safe
  deriving DecidableEq, Repr

/-- `AutoEscape` (source lines 105-127); the `Json` variant is the
`feature = "json"` arm. -/
inductive AutoEscape
  | None
  | Html
  | Json
  | Custom (name : String)
  deriving DecidableEq, Repr

/-- Modelled from the spec: the value kinds the dispatcher inspects. -/
inductive ValueKind
  | Undefined
  | None
  | Bool
  | Number
  | String
  | Other
  deriving DecidableEq, Repr

/-- Modelled from the spec: the externally-owned value, reduced to the
interface this module reads — its kind, an optional string representation
with the safety flag (`ValueRepr::String(s, ty)`), and a default
stringification carried explicitly for the non-string kinds that need one
(`VOther` for sequences, maps and other opaque kinds). -/
inductive Value
  | VUndefined
  | VNone
  | VBool (b : Bool)
  | VNumber (n : Int)
  | VString (s : List Nat) (ty : StringType)
  | VOther (disp : List Nat)
  deriving DecidableEq, Repr

/-- `Value::kind()`. -/
def Value.kind : Value → ValueKind
  | Value.VUndefined => ValueKind.Undefined
  | Value.VNone => ValueKind.None
  | Value.VBool _ => ValueKind.Bool
  | Value.VNumber _ => ValueKind.Number
  | Value.VString _ _ => ValueKind.String
  | Value.VOther _ => ValueKind.Other

/-- `Value::as_str()`. -/
def Value.as_str : Value → Option (List Nat)
  | Value.VString s _ => some s
  | _ => none

/-- Modelled from the spec: the value's default stringification (its
`Display` form) as UTF-8 bytes — undefined renders empty, none renders
`none`, booleans and numbers render their usual text, strings render
themselves, opaque values render their carried display text. -/
def Value.display : Value → List Nat
  | Value.VUndefined => []
  | Value.VNone => [0x6E, 0x6F, 0x6E, 0x65]
  | Value.VBool true => [0x74, 0x72, 0x75, 0x65]
  | Value.VBool false => [0x66, 0x61, 0x6C, 0x73, 0x65]
  | Value.VNumber n => (toString n).toList.map Char.toNat
  | Value.VString s _ => s
  | Value.VOther disp => disp

/-- Embedding of `invalid_autoescape` (source lines 65-70). -/
def invalid_autoescape (name : String) : Error :=
  { kind := ErrorKind.InvalidOperation,
    message :=
      "Default formatter does not know how to format to custom format '"
        ++ name ++ "'" }

/-- Embedding of `write_with_html_escaping` (source lines 52-63): simple
kinds print unescaped, string-likes go through the HTML escaper, everything
else is stringified first and then escaped. -/
def write_with_html_escaping (out : List Nat) (v : Value) : List Nat :=
  if v.kind = ValueKind.Undefined ∨ v.kind = ValueKind.None ∨
      v.kind = ValueKind.Bool ∨ v.kind = ValueKind.Number then
    out ++ v.display
  else
    match v.as_str with
    | some s => out ++ HtmlEscape s
    | none => out ++ HtmlEscape v.display

/-- The `match auto_escape` dispatch of `write_escaped` after the fast
path. `ser` is the external structured-serialization capability
(`serde_json::to_string`), modelled as a parameter; `none` is its failure
case, surfaced as `BadSerialization`. The result is the `Result` paired
with the final sink contents (the sink is append-only, so on error the
already-written material stays). -/
def writeEscapedSlow (ser : Value → Option (List Nat)) (out : List Nat)
    (auto_escape : AutoEscape) (v : Value) : Except Error Unit × List Nat :=
  match auto_escape with
  | AutoEscape.None => (Except.ok (), out ++ v.display)
  | AutoEscape.Html => (Except.ok (), write_with_html_escaping out v)
  | AutoEscape.Json =>
    match ser v with
    | some j => (Except.ok (), out ++ j)
    | none =>
      (Except.error { kind := ErrorKind.BadSerialization,
                      message := "unable to format to JSON" }, out)
  | AutoEscape.Custom name => (Except.error (invalid_autoescape name), out)

/-- Embedding of `write_escaped` (source lines 72-97): the fast path
returns the raw string bytes for safe strings and for any string under
`AutoEscape::None`; everything else goes through the mode dispatch. -/
def write_escaped (ser : Value → Option (List Nat)) (out : List Nat)
    (auto_escape : AutoEscape) (v : Value) : Except Error Unit × List Nat :=
  match v with
  | Value.VString s ty =>
    if ty = StringType.Safe ∨ auto_escape = AutoEscape.None then
      (Except.ok (), out ++ s)
    else writeEscapedSlow ser out auto_escape v
  | _ => writeEscapedSlow ser out auto_escape v
/-! ## Correctness of the HTML escaper run-flushing loop -/

lemma sliceBytes_empty (l : List Nat) {s e : Nat} (h : e ≤ s) :
    sliceBytes l s e = [] := by
  unfold sliceBytes
  apply List.drop_eq_nil_of_le
  have := List.length_take e l
  omega

lemma sliceBytes_full {l : List Nat} (s : Nat) {i : Nat} (h : l.length ≤ i) :
    sliceBytes l s i = l.drop s := by
  unfold sliceBytes
  rw [List.take_of_length_le h]

lemma sliceBytes_snoc {l : List Nat} {s i b : Nat} (hs : s ≤ i)
    (hget : l[i]? = some b) :
    sliceBytes l s (i + 1) = sliceBytes l s i ++ [b] := by
  have hi : i < l.length := (List.getElem?_eq_some.mp hget).1
  unfold sliceBytes
  rw [List.take_succ, hget]
  show (List.take i l ++ [b]).drop s = (List.take i l).drop s ++ [b]
  rw [List.drop_append_of_le_length]
  have := List.length_take i l
  omega

lemma escEntity_inEscRange {b : Nat} {ent : List Nat}
    (h : escEntity b = some ent) : inEscRange b = true := by
  unfold escEntity at h
  split_ifs at h with h1 h2 h3 h4 h5 h6
  · subst h1; decide
  · subst h2; decide
  · subst h3; decide
  · subst h4; decide
  · subst h5; decide
  · subst h6; decide

lemma htmlEscapeGo_spec (bytes : List Nat) (suffix : List Nat) :
    ∀ (i start : Nat) (acc : List Nat), bytes.drop i = suffix → start ≤ i →
      htmlEscapeGo bytes suffix i start acc =
        acc ++ sliceBytes bytes start i ++ suffix.flatMap escByteSpec := by
  induction suffix with
  | nil =>
    intro i start acc hdrop hle
    have hlen : bytes.length ≤ i := List.drop_eq_nil_iff.mp hdrop
    simp only [htmlEscapeGo, List.flatMap_nil, List.append_nil]
    by_cases hs : start < bytes.length
    · rw [if_pos hs, sliceBytes_full start hlen]
      unfold sliceBytes
      rw [List.take_length]
    · rw [if_neg hs, sliceBytes_full start hlen,
        List.drop_eq_nil_of_le (by omega), List.append_nil]
  | cons b rest ih =>
    intro i start acc hdrop hle
    have hb : bytes[i]? = some b := by
      have := List.getElem?_drop bytes i 0
      rw [hdrop] at this
      simpa using this.symm
    have hrest : bytes.drop (i + 1) = rest := by
      have := List.tail_drop bytes i
      rw [hdrop] at this
      exact this.symm
    simp only [htmlEscapeGo]
    cases hE : escEntity b with
    | some ent =>
      rw [if_pos (escEntity_inEscRange hE)]
      dsimp only
      rw [ih (i + 1) (i + 1) _ hrest le_rfl]
      rw [sliceBytes_empty bytes le_rfl]
      have hguard : (if start < i then sliceBytes bytes start i else []) =
          sliceBytes bytes start i := by
        by_cases h : start < i
        · rw [if_pos h]
        · rw [if_neg h, sliceBytes_empty bytes (by omega)]
      rw [hguard]
      simp only [List.flatMap_cons, escByteSpec, hE]
      simp [List.append_assoc]
    | none =>
      have hstep :
          htmlEscapeGo bytes rest (i + 1) start acc =
            acc ++ sliceBytes bytes start (i + 1) ++ rest.flatMap escByteSpec :=
        ih (i + 1) start acc hrest (by omega)
      have hsnoc := sliceBytes_snoc hle hb
      have hrhs :
          acc ++ sliceBytes bytes start (i + 1) ++ rest.flatMap escByteSpec =
            acc ++ sliceBytes bytes start i ++ (b :: rest).flatMap escByteSpec := by
        rw [hsnoc]
        simp only [List.flatMap_cons, escByteSpec, hE]
        simp [List.append_assoc]
      by_cases hR : inEscRange b
      · rw [if_pos hR]
        dsimp only
        rw [hstep, hrhs]
      · rw [if_neg hR, hstep, hrhs]

lemma HtmlEscape_eq_spec (s : List Nat) : HtmlEscape s = HtmlEscapeSpec s := by
  unfold HtmlEscape HtmlEscapeSpec
  rw [htmlEscapeGo_spec s s 0 0 [] (List.drop_zero s) le_rfl]
  rw [sliceBytes_empty s le_rfl]
  simp

lemma flatMap_escByteSpec_id {s : List Nat} (h : ∀ b ∈ s, escEntity b = none) :
    s.flatMap escByteSpec = s := by
  induction s with
  | nil => simp
  | cons b rest ih =>
    rw [List.flatMap_cons]
    rw [show escByteSpec b = [b] by
      unfold escByteSpec
      rw [h b (List.mem_cons_self b rest)]]
    rw [ih (fun x hx => h x (List.mem_cons_of_mem b hx))]
    rfl

/-! ## Output invariants of the HTML escaper -/

/-- The five reserved bytes that must never appear in escaped output
(every `&` that appears belongs to an entity, so `&` is treated
separately). -/
def forbiddenByte (b : Nat) : Prop :=
  b = bLt ∨ b = bGt ∨ b = bQuot ∨ b = bApos ∨ b = bSlash

/-- The six replacement entities. -/
def isEntity (e : List Nat) : Prop :=
  e = entLt ∨ e = entGt ∨ e = entAmp ∨ e = entQuot ∨ e = entApos ∨ e = entSlash

/-- An output byte list is clean when it holds none of the five forbidden
bytes and every `&` in it begins an occurrence of one of the six
entities. -/
def CleanOut (l : List Nat) : Prop :=
  (∀ b ∈ l, ¬ forbiddenByte b) ∧
  (∀ i, l[i]? = some bAmp → ∃ e t, isEntity e ∧ l.drop i = e ++ t)

lemma cleanOut_nil : CleanOut [] := by
  constructor
  · intro b hb
    simp at hb
  · intro i hi
    simp at hi

instance (b : Nat) : Decidable (forbiddenByte b) := by
  unfold forbiddenByte
  infer_instance

instance (e : List Nat) : Decidable (isEntity e) := by
  unfold isEntity
  infer_instance

lemma drop_append_of_ge {e xs : List Nat} {i : Nat} (h : e.length ≤ i) :
    (e ++ xs).drop i = xs.drop (i - e.length) := by
  have h2 : i = e.length + (i - e.length) := by omega
  conv_lhs => rw [h2, List.drop_append]

lemma cleanOut_entity_cons {e xs : List Nat} (he : isEntity e)
    (hforb : ∀ y ∈ e, ¬ forbiddenByte y)
    (hamp : ∀ y ∈ e.drop 1, y ≠ bAmp)
    (hxs : CleanOut xs) : CleanOut (e ++ xs) := by
  constructor
  · intro y hy
    rcases List.mem_append.mp hy with hy | hy
    · exact hforb y hy
    · exact hxs.1 y hy
  · intro i hi
    by_cases hlen : i < e.length
    · cases i with
      | zero =>
        refine ⟨e, xs, he, ?_⟩
        rw [List.drop_zero]
      | succ j =>
        exfalso
        rw [List.getElem?_append, if_pos hlen] at hi

        have hmem : bAmp ∈ e.drop 1 := by
          have : (e.drop 1)[j]? = some bAmp := by
            rw [List.getElem?_drop]
            rw [Nat.add_comm]
            exact hi
          exact List.getElem?_mem this
        exact hamp bAmp hmem rfl
    · push_neg at hlen
      rw [List.getElem?_append_right hlen] at hi
      obtain ⟨e2, t, he2, hdrop⟩ := hxs.2 (i - e.length) hi
      refine ⟨e2, t, he2, ?_⟩
      rw [drop_append_of_ge hlen, hdrop]

lemma cleanOut_plain_cons {b : Nat} {xs : List Nat}
    (hb : escEntity b = none) (hxs : CleanOut xs) : CleanOut (b :: xs) := by
  constructor
  · intro y hy
    rcases List.mem_cons.mp hy with hy | hy
    · subst hy
      intro hf
      rcases hf with h | h | h | h | h <;>
        (subst h; exact absurd hb (by decide))
    · exact hxs.1 y hy
  · intro i hi
    cases i with
    | zero =>
      rw [List.getElem?_cons_zero] at hi
      have : b = bAmp := by injection hi
      subst this
      exact absurd hb (by decide)
    | succ j =>
      rw [List.getElem?_cons_succ] at hi
      obtain ⟨e2, t, he2, hdrop⟩ := hxs.2 j hi
      exact ⟨e2, t, he2, by rw [List.drop_succ_cons, hdrop]⟩

lemma cleanOut_flatMap (s : List Nat) : CleanOut (s.flatMap escByteSpec) := by
  induction s with
  | nil =>
    rw [List.flatMap_nil]
    exact cleanOut_nil
  | cons b rest ih =>
    rw [List.flatMap_cons]
    cases hE : escEntity b with
    | some ent =>
      have hb : escByteSpec b = ent := by
        unfold escByteSpec
        rw [hE]
      rw [hb]
      have hent : isEntity ent := by
        unfold escEntity at hE
        split_ifs at hE with h1 h2 h3 h4 h5 h6 <;>
          (injection hE with hEq) <;> subst hEq
        · exact Or.inl rfl
        · exact Or.inr (Or.inl rfl)
        · exact Or.inr (Or.inr (Or.inl rfl))
        · exact Or.inr (Or.inr (Or.inr (Or.inl rfl)))
        · exact Or.inr (Or.inr (Or.inr (Or.inr (Or.inl rfl))))
        · exact Or.inr (Or.inr (Or.inr (Or.inr (Or.inr rfl))))
      apply cleanOut_entity_cons hent ?_ ?_ ih
      · rcases hent with h | h | h | h | h | h <;> (subst h; decide)
      · rcases hent with h | h | h | h | h | h <;> (subst h; decide)
    | none =>
      have hb : escByteSpec b = [b] := by
        unfold escByteSpec
        rw [hE]
      rw [hb]
      exact cleanOut_plain_cons hE ih

lemma cleanOut_HtmlEscape (s : List Nat) : CleanOut (HtmlEscape s) := by
  rw [HtmlEscape_eq_spec]
  exact cleanOut_flatMap s

/-! ## Characterization of the sliding-window search -/

lemma windowsGo_getElem {size : Nat} (hsize : 1 ≤ size) :
    ∀ (l : List Nat) (i : Nat),
      (windowsGo size l)[i]? =
        if i + size ≤ l.length then some ((l.drop i).take size) else none := by
  intro l
  induction l with
  | nil =>
    intro i
    rw [if_neg (by simp only [List.length_nil]; omega)]
    simp [windowsGo]
  | cons a l ih =>
    intro i
    by_cases h : size ≤ l.length + 1
    · simp only [windowsGo, List.length_cons, if_pos h]
      cases i with
      | zero =>
        rw [List.getElem?_cons_zero, if_pos (by omega)]
        rw [List.drop_zero]
      | succ j =>
        rw [List.getElem?_cons_succ, ih j]
        by_cases hj : j + size ≤ l.length
        · rw [if_pos hj, if_pos (by omega)]
          rw [List.drop_succ_cons]
        · rw [if_neg hj, if_neg (by omega)]
    · simp only [windowsGo, List.length_cons, if_neg h]
      rw [if_neg (by omega)]
      simp

lemma findIdx?_some_char (p : List Nat → Bool) :
    ∀ (l : List (List Nat)) (s j : Nat), List.findIdx? p l s = some j →
      s ≤ j ∧ (∃ x, l[j - s]? = some x ∧ p x = true) ∧
        ∀ k x2, k < j - s → l[k]? = some x2 → p x2 = false := by
  intro l
  induction l with
  | nil =>
    intro s j h
    rw [List.findIdx?_nil] at h
    exact absurd h (by simp)
  | cons x xs ih =>
    intro s j h
    rw [List.findIdx?_cons] at h
    by_cases hp : p x = true
    · rw [if_pos hp] at h
      have hj : j = s := by injection h with h2; omega
      subst hj
      refine ⟨le_rfl, ⟨x, ?_, hp⟩, ?_⟩
      · rw [Nat.sub_self, List.getElem?_cons_zero]
      · intro k x2 hk
        omega
    · rw [if_neg hp] at h
      obtain ⟨hle, ⟨x3, hx3, hpx3⟩, hearlier⟩ := ih (s + 1) j h
      refine ⟨by omega, ⟨x3, ?_, hpx3⟩, ?_⟩
      · have : j - s = (j - (s + 1)) + 1 := by omega
        rw [this, List.getElem?_cons_succ]
        exact hx3
      · intro k x2 hk hget
        cases k with
        | zero =>
          rw [List.getElem?_cons_zero] at hget
          have : x2 = x := by injection hget with h2; exact h2.symm
          subst this
          exact eq_false_of_ne_true hp
        | succ m =>
          rw [List.getElem?_cons_succ] at hget
          exact hearlier m x2 (by omega) hget

lemma findIdx?_none_char (p : List Nat → Bool) :
    ∀ (l : List (List Nat)) (s : Nat), List.findIdx? p l s = none →
      ∀ x ∈ l, p x = false := by
  intro l
  induction l with
  | nil =>
    intro s _ x hx
    exact absurd hx (by simp)
  | cons y ys ih =>
    intro s h x hx
    rw [List.findIdx?_cons] at h
    by_cases hp : p y = true
    · rw [if_pos hp] at h
      exact absurd h (by simp)
    · rw [if_neg hp] at h
      rcases List.mem_cons.mp hx with hx | hx
      · subst hx
        exact eq_false_of_ne_true hp
      · exact ih (s + 1) h x hx

/-! ## Unescaper step lemmas -/

/-- The short-escape table of `Unescaper::unescape` as a lookup: the escape
letter and the character its arm appends. -/
def escShortMap (d : Nat) : Option Nat :=
  if d = 0x22 ∨ d = 0x5C ∨ d = 0x2F ∨ d = 0x27 then some d
  else if d = 0x62 then some 0x08
  else if d = 0x66 then some 0x0C
  else if d = 0x6E then some 0x0A
  else if d = 0x72 then some 0x0D
  else if d = 0x74 then some 0x09
  else none

lemma push_char_pending {u : Unescaper} (c : Nat)
    (h : u.pending_surrogate ≠ 0) :
    push_char u c = Except.error badEscape := by
  unfold push_char
  rw [if_pos h]

lemma push_char_free {u : Unescaper} (c : Nat) (h : u.pending_surrogate = 0) :
    push_char u c = Except.ok { u with out := u.out ++ [c] } := by
  unfold push_char
  rw [if_neg (by omega)]

lemma escShortMap_ne_u {d m : Nat} (hd : escShortMap d = some m) : d ≠ 0x75 := by
  intro h
  subst h
  exact Option.noConfusion hd

lemma applyShort_eq {d m : Nat} (hd : escShortMap d = some m) (u : Unescaper) :
    applyShort u d = push_char u m := by
  unfold escShortMap at hd
  unfold applyShort
  split_ifs at hd with h1 h2 h3 h4 h5 h6
  · injection hd with hm
    subst hm
    rw [if_pos h1]
  · injection hd with hm
    subst hm
    rw [if_neg h1, if_pos h2]
  · injection hd with hm
    subst hm
    rw [if_neg h1, if_neg h2, if_pos h3]
  · injection hd with hm
    subst hm
    rw [if_neg h1, if_neg h2, if_neg h3, if_pos h4]
  · injection hd with hm
    subst hm
    rw [if_neg h1, if_neg h2, if_neg h3, if_neg h4, if_pos h5]
  · injection hd with hm
    subst hm
    rw [if_neg h1, if_neg h2, if_neg h3, if_neg h4, if_neg h5, if_pos h6]

lemma applyShort_none {d : Nat} (hd : escShortMap d = none) (u : Unescaper) :
    applyShort u d = Except.error badEscape := by
  unfold escShortMap at hd
  unfold applyShort
  split_ifs at hd with h1 h2 h3 h4 h5 h6
  rw [if_neg h1, if_neg h2, if_neg h3, if_neg h4, if_neg h5, if_neg h6]

lemma unescapeGo_nil (u : Unescaper) : unescapeGo u [] = unescapeEnd u := by
  rw [unescapeGo.eq_def]

lemma unescapeGo_nil_pending {u : Unescaper} (h : u.pending_surrogate ≠ 0) :
    unescapeGo u [] = Except.error badEscape := by
  rw [unescapeGo_nil]
  unfold unescapeEnd
  rw [if_pos h]

lemma unescapeGo_nil_ok {u : Unescaper} {r : List Nat}
    (h : unescapeGo u [] = Except.ok r) : u.pending_surrogate = 0 := by
  by_contra hne
  rw [unescapeGo_nil_pending hne] at h
  exact Except.noConfusion h

lemma unescapeGo_literal {u : Unescaper} {c : Nat} (rest : List Nat)
    (hc : c ≠ 0x5C) :
    unescapeGo u (c :: rest) =
      match push_char u c with
      | Except.error e => Except.error e
      | Except.ok u2 => unescapeGo u2 rest := by
  rw [unescapeGo.eq_def]
  dsimp only
  rw [if_neg hc]

lemma unescapeGo_literal_pending {u : Unescaper} {c : Nat} (rest : List Nat)
    (hc : c ≠ 0x5C) (h : u.pending_surrogate ≠ 0) :
    unescapeGo u (c :: rest) = Except.error badEscape := by
  rw [unescapeGo_literal rest hc, push_char_pending c h]

lemma unescapeGo_backslash_end (u : Unescaper) :
    unescapeGo u [0x5C] = Except.error badEscape := rfl

lemma unescapeGo_backslash {u : Unescaper} {d : Nat} (rest : List Nat)
    (hu : d ≠ 0x75) :
    unescapeGo u (0x5C :: d :: rest) =
      match applyShort u d with
      | Except.error e => Except.error e
      | Except.ok u2 => unescapeGo u2 rest := by
  rw [unescapeGo.eq_def]
  show (if d = 0x75 then _ else _) = _
  rw [if_neg hu]

lemma unescapeGo_short {u : Unescaper} {d m : Nat} (rest : List Nat)
    (hd : escShortMap d = some m) :
    unescapeGo u (0x5C :: d :: rest) =
      match push_char u m with
      | Except.error e => Except.error e
      | Except.ok u2 => unescapeGo u2 rest := by
  rw [unescapeGo_backslash rest (escShortMap_ne_u hd), applyShort_eq hd]

lemma unescapeGo_short_pending {u : Unescaper} {d m : Nat} (rest : List Nat)
    (hd : escShortMap d = some m) (h : u.pending_surrogate ≠ 0) :
    unescapeGo u (0x5C :: d :: rest) = Except.error badEscape := by
  rw [unescapeGo_short rest hd, push_char_pending m h]

lemma unescapeGo_short_free {u : Unescaper} {d m : Nat} (rest : List Nat)
    (hd : escShortMap d = some m) (h : u.pending_surrogate = 0) :
    unescapeGo u (0x5C :: d :: rest) =
      unescapeGo { u with out := u.out ++ [m] } rest := by
  rw [unescapeGo_short rest hd, push_char_free m h]

lemma unescapeGo_unknown {u : Unescaper} {d : Nat} (rest : List Nat)
    (hd : escShortMap d = none) (hu : d ≠ 0x75) :
    unescapeGo u (0x5C :: d :: rest) = Except.error badEscape := by
  rw [unescapeGo_backslash rest hu, applyShort_none hd]

lemma unescapeGo_u_four (u : Unescaper) (c1 c2 c3 c4 : Nat)
    (rest3 : List Nat) :
    unescapeGo u (0x5C :: 0x75 :: c1 :: c2 :: c3 :: c4 :: rest3) =
      match applyU u [c1, c2, c3, c4] with
      | Except.error e => Except.error e
      | Except.ok u2 => unescapeGo u2 rest3 := rfl

lemma unescapeGo_u_zero (u : Unescaper) :
    unescapeGo u [0x5C, 0x75] =
      match applyU u [0, 0, 0, 0] with
      | Except.error e => Except.error e
      | Except.ok u2 => unescapeEnd u2 := rfl

lemma unescapeGo_u_one (u : Unescaper) (a : Nat) :
    unescapeGo u [0x5C, 0x75, a] =
      match applyU u [a, 0, 0, 0] with
      | Except.error e => Except.error e
      | Except.ok u2 => unescapeEnd u2 := rfl

lemma unescapeGo_u_two (u : Unescaper) (a b : Nat) :
    unescapeGo u [0x5C, 0x75, a, b] =
      match applyU u [a, b, 0, 0] with
      | Except.error e => Except.error e
      | Except.ok u2 => unescapeEnd u2 := rfl

lemma unescapeGo_u_three (u : Unescaper) (a b c : Nat) :
    unescapeGo u [0x5C, 0x75, a, b, c] =
      match applyU u [a, b, c, 0] with
      | Except.error e => Except.error e
      | Except.ok u2 => unescapeEnd u2 := rfl

/-! ## Characterization of the hex parser and of surrogate pairing -/

lemma hexAccStep_acc_none (c : Nat) : hexAccStep none c = none := by
  unfold hexAccStep
  cases hexDigitVal c <;> rfl

lemma hexAccStep_digit_none {c : Nat} (acc : Option Nat)
    (h : hexDigitVal c = none) : hexAccStep acc c = none := by
  unfold hexAccStep
  rw [h]
  cases acc <;> rfl

lemma foldl_hexAccStep_none : ∀ cs : List Nat, cs.foldl hexAccStep none = none := by
  intro cs
  induction cs with
  | nil => rfl
  | cons x xs ih =>
    rw [List.foldl_cons, hexAccStep_acc_none]
    exact ih

lemma foldl_hexAccStep_badchar :
    ∀ (cs : List Nat) (acc : Option Nat) (c : Nat), c ∈ cs →
      hexDigitVal c = none → cs.foldl hexAccStep acc = none := by
  intro cs
  induction cs with
  | nil =>
    intro acc c hc
    exact absurd hc (by simp)
  | cons x xs ih =>
    intro acc c hc hhex
    rw [List.foldl_cons]
    rcases List.mem_cons.mp hc with h | h
    · subst h
      rw [hexAccStep_digit_none acc hhex]
      exact foldl_hexAccStep_none xs
    · exact ih _ c h hhex

lemma parseDigits_badchar {cs : List Nat} {c : Nat} (hc : c ∈ cs)
    (hhex : hexDigitVal c = none) : parseDigits cs = none :=
  foldl_hexAccStep_badchar cs (some 0) c hc hhex

lemma parse_u16_badchar {cs : List Nat} {c : Nat} (hc : c ∈ cs)
    (hhex : hexDigitVal c = none) (hplus : c ≠ 0x2B) :
    parse_u16 cs = none := by
  cases cs with
  | nil => rfl
  | cons a rest =>
    unfold parse_u16
    dsimp only
    by_cases ha : a = 0x2B
    · rw [if_pos ha]
      subst ha
      have hcr : c ∈ rest := by
        rcases List.mem_cons.mp hc with h | h
        · exact absurd h hplus
        · exact h
      by_cases hrest : rest = []
      · rw [if_pos hrest]
      · rw [if_neg hrest]
        exact parseDigits_badchar hcr hhex
    · rw [if_neg ha]
      exact parseDigits_badchar hc hhex

lemma foldl_hexAccStep_some :
    ∀ (cs : List Nat) (acc : Option Nat) (v : Nat),
      cs.foldl hexAccStep acc = some v →
      (∀ c ∈ cs, hexDigitVal c ≠ none) ∧ (v < 0x10000 ∨ acc = some v) := by
  intro cs
  induction cs with
  | nil =>
    intro acc v h
    exact ⟨by simp, Or.inr h⟩
  | cons x xs ih =>
    intro acc v h
    rw [List.foldl_cons] at h
    obtain ⟨hall, hbound⟩ := ih (hexAccStep acc x) v h
    have hx : hexDigitVal x ≠ none := by
      intro hnone
      rw [hexAccStep_digit_none acc hnone, foldl_hexAccStep_none xs] at h
      exact Option.noConfusion h
    refine ⟨?_, ?_⟩
    · intro c hc
      rcases List.mem_cons.mp hc with hc | hc
      · subst hc
        exact hx
      · exact hall c hc
    · rcases hbound with hb | hb
      · exact Or.inl hb
      · left
        cases hacc : acc with
        | none =>
          rw [hacc, hexAccStep_acc_none] at hb
          exact absurd hb (by simp)
        | some a =>
          cases hdx : hexDigitVal x with
          | none => exact absurd hdx hx
          | some d =>
            rw [hacc] at hb
            unfold hexAccStep at hb
            rw [hdx] at hb
            dsimp only at hb
            by_cases hlt : a * 16 + d < 0x10000
            · rw [if_pos hlt] at hb
              injection hb with hb2
              omega
            · rw [if_neg hlt] at hb
              exact absurd hb (by simp)

lemma parseDigits_some {cs : List Nat} {v : Nat}
    (h : parseDigits cs = some v) :
    v < 0x10000 ∧ ∀ c ∈ cs, hexDigitVal c ≠ none := by
  obtain ⟨hall, hbound⟩ := foldl_hexAccStep_some cs (some 0) v h
  refine ⟨?_, hall⟩
  rcases hbound with hb | hb
  · exact hb
  · injection hb with hb2
    omega

lemma parse_u16_some {cs : List Nat} {v : Nat} (h : parse_u16 cs = some v) :
    v < 0x10000 ∧ ∀ c ∈ cs, hexDigitVal c ≠ none ∨ c = 0x2B := by
  cases cs with
  | nil => exact absurd h (by simp [parse_u16])
  | cons a rest =>
    unfold parse_u16 at h
    dsimp only at h
    by_cases ha : a = 0x2B
    · rw [if_pos ha] at h
      by_cases hrest : rest = []
      · rw [if_pos hrest] at h
        exact absurd h (by simp)
      · rw [if_neg hrest] at h
        obtain ⟨hv, hall⟩ := parseDigits_some h
        refine ⟨hv, ?_⟩
        intro c hc
        rcases List.mem_cons.mp hc with hc | hc
        · subst hc
          exact Or.inr ha
        · exact Or.inl (hall c hc)
    · rw [if_neg ha] at h
      obtain ⟨hv, hall⟩ := parseDigits_some h
      exact ⟨hv, fun c hc => Or.inl (hall c hc)⟩

lemma applyU_badchar {hexnum : List Nat} {c : Nat} (hc : c ∈ hexnum)
    (hhex : hexDigitVal c = none) (hplus : c ≠ 0x2B) (u : Unescaper) :
    applyU u hexnum = Except.error badEscape := by
  unfold applyU
  rw [parse_u16_badchar hc hhex hplus]

lemma unescapeGo_u_short {u : Unescaper} :
    ∀ rest : List Nat, rest.length < 4 →
      unescapeGo u (0x5C :: 0x75 :: rest) = Except.error badEscape := by
  have h0 : hexDigitVal 0 = none := rfl
  have hp : (0 : Nat) ≠ 0x2B := by omega
  intro rest hlen
  match rest, hlen with
  | [], _ =>
    rw [unescapeGo_u_zero, applyU_badchar (by simp) h0 hp]
  | [a], _ =>
    rw [unescapeGo_u_one, applyU_badchar (by simp) h0 hp]
  | [a, b], _ =>
    rw [unescapeGo_u_two, applyU_badchar (by simp) h0 hp]
  | [a, b, c], _ =>
    rw [unescapeGo_u_three, applyU_badchar (by simp) h0 hp]

/-- Surrogate-pair combination: a pending high surrogate followed by a low
surrogate decodes to the paired code point and clears the slot. -/
lemma push_u16_pair_ok {u : Unescaper} {c : Nat}
    (hp1 : 0xD800 ≤ u.pending_surrogate) (hp2 : u.pending_surrogate ≤ 0xDBFF)
    (hc1 : 0xDC00 ≤ c) (hc2 : c ≤ 0xDFFF) :
    push_u16 u c = Except.ok
      { out := u.out ++
          [0x10000 + (u.pending_surrogate - 0xD800) * 0x400 + (c - 0xDC00)],
        pending_surrogate := 0 } := by
  unfold push_u16
  rw [if_neg (by omega)]
  have hS : isSurrogate c = true := by
    simp only [isSurrogate, decide_eq_true_eq]
    omega
  rw [if_pos hS]
  unfold decodeUtf16Pair
  rw [if_pos ⟨hp1, hp2, hc1, hc2⟩]

/-- Surrogate-pair combination: an invalid combination (the pending unit is
a low surrogate, or the new unit is another high surrogate) fails. -/
lemma push_u16_pair_err {u : Unescaper} {c : Nat}
    (hp1 : 0xD800 ≤ u.pending_surrogate) (hp2 : u.pending_surrogate ≤ 0xDFFF)
    (hc1 : 0xD800 ≤ c) (hc2 : c ≤ 0xDFFF)
    (hbad : 0xDC00 ≤ u.pending_surrogate ∨ c ≤ 0xDBFF) :
    push_u16 u c = Except.error badEscape := by
  unfold push_u16
  rw [if_neg (by omega)]
  have hS : isSurrogate c = true := by
    simp only [isSurrogate, decide_eq_true_eq]
    omega
  rw [if_pos hS]
  unfold decodeUtf16Pair
  rw [if_neg (by
    intro hcon
    obtain ⟨k1, k2, k3, k4⟩ := hcon
    rcases hbad with h | h <;> omega)]

/-! ## Claim theorems -/

/-- C1: for every input string, `HtmlEscape` equals the
character-by-character transformation in which each of the six reserved
characters becomes its entity and every other character is copied
unchanged; in particular it is the identity on strings containing none of
the six. -/
theorem C1_htmlEscape_charwise (s : List Nat) :
    HtmlEscape s = HtmlEscapeSpec s ∧
    ((∀ b ∈ s, escEntity b = none) → HtmlEscape s = s) := by
  refine ⟨HtmlEscape_eq_spec s, fun h => ?_⟩
  rw [HtmlEscape_eq_spec s]
  unfold HtmlEscapeSpec
  exact flatMap_escByteSpec_id h

/-- Witness for C1 at concrete inputs. -/
theorem C1_htmlEscape_charwise_witness :
    HtmlEscape [0x61, 0x3C, 0x62] = HtmlEscapeSpec [0x61, 0x3C, 0x62] ∧
    HtmlEscape [0x61, 0x62, 0x63] = [0x61, 0x62, 0x63] :=
  ⟨(C1_htmlEscape_charwise [0x61, 0x3C, 0x62]).1,
   (C1_htmlEscape_charwise [0x61, 0x62, 0x63]).2 (by decide)⟩

/-- C2: `write_escaped` writes the raw string bytes and returns `Ok`
whenever the value is a safe-marked string (under every mode) or the mode
is `None` and the value is a string. -/
theorem C2_write_escaped_fast_path (ser : Value → Option (List Nat))
    (out : List Nat) (auto_escape : AutoEscape) (s : List Nat)
    (ty : StringType)
    (h : ty = StringType.Safe ∨ auto_escape = AutoEscape.None) :
    write_escaped ser out auto_escape (Value.VString s ty) =
      (Except.ok (), out ++ s) := by
  unfold write_escaped
  dsimp only
  rw [if_pos h]

/-- Witness for C2: a safe string containing reserved characters passes
through `Html` mode unmodified. -/
theorem C2_write_escaped_fast_path_witness :
    write_escaped (fun _ => none) [] AutoEscape.Html
        (Value.VString [0x3C, 0x26] StringType.Safe) =
      (Except.ok (), [] ++ [0x3C, 0x26]) :=
  C2_write_escaped_fast_path (fun _ => none) [] AutoEscape.Html
    [0x3C, 0x26] StringType.Safe (Or.inl rfl)

/-- C3: with a pending surrogate and a new `\uXXXX` value in the surrogate
range, the two units decode as one UTF-16 pair — appended and the slot
cleared when the pair is valid, `BadEscape` otherwise; in particular
the escape pair for U+1F4A9 decodes to that single character. -/
theorem C3_surrogate_pair (u : Unescaper) (c : Nat)
    (hp1 : 0xD800 ≤ u.pending_surrogate) (hp2 : u.pending_surrogate ≤ 0xDFFF)
    (hc1 : 0xD800 ≤ c) (hc2 : c ≤ 0xDFFF) :
    (u.pending_surrogate ≤ 0xDBFF → 0xDC00 ≤ c →
      push_u16 u c = Except.ok
        { out := u.out ++
            [0x10000 + (u.pending_surrogate - 0xD800) * 0x400 + (c - 0xDC00)],
          pending_surrogate := 0 }) ∧
    ((0xDC00 ≤ u.pending_surrogate ∨ c ≤ 0xDBFF) →
      push_u16 u c = Except.error badEscape) ∧
    unescape [0x5C, 0x75, 0x64, 0x38, 0x33, 0x64,
        0x5C, 0x75, 0x64, 0x63, 0x61, 0x39] = Except.ok [0x1F4A9] :=
  ⟨fun h1 h2 => push_u16_pair_ok hp1 h1 h2 hc2,
   fun hbad => push_u16_pair_err hp1 hp2 hc1 hc2 hbad,
   rfl⟩

/-- Witness for C3: combining the pending high surrogate 0xD83D with the
low surrogate 0xDCA9. -/
theorem C3_surrogate_pair_witness :
    push_u16 { out := [], pending_surrogate := 0xD83D } 0xDCA9 =
      Except.ok { out := [0x1F4A9], pending_surrogate := 0 } := by
  have h := (C3_surrogate_pair { out := [], pending_surrogate := 0xD83D }
    0xDCA9 (by decide) (by decide) (by decide) (by decide)).1
    (by decide) (by decide)
  simpa using h

/-- C4 counterexample: the code also accepts the apostrophe escape
`\'` (decoding it to `'`), although the claim's accepted set excludes it
and demands `BadEscape` for it. -/
theorem C4_counterexample : unescape [0x5C, 0x27] = Except.ok [0x27] := rfl

/-- C4 (amended): a backslash followed by one of `" \ / ' b f n r t`
appends exactly the one corresponding character (the escape table is
spelled out), and a backslash followed by any character outside that set
and distinct from `u` makes `unescape` fail with `BadEscape`. -/
theorem C4_short_escapes (u : Unescaper) (d m : Nat) (rest : List Nat) :
    (escShortMap 0x22 = some 0x22 ∧ escShortMap 0x5C = some 0x5C ∧
     escShortMap 0x2F = some 0x2F ∧ escShortMap 0x27 = some 0x27 ∧
     escShortMap 0x62 = some 0x08 ∧ escShortMap 0x66 = some 0x0C ∧
     escShortMap 0x6E = some 0x0A ∧ escShortMap 0x72 = some 0x0D ∧
     escShortMap 0x74 = some 0x09) ∧
    (u.pending_surrogate = 0 → escShortMap d = some m →
      unescapeGo u (0x5C :: d :: rest) =
        unescapeGo { u with out := u.out ++ [m] } rest) ∧
    (escShortMap d = none → d ≠ 0x75 →
      unescapeGo u (0x5C :: d :: rest) = Except.error badEscape) :=
  ⟨by decide,
   fun h0 hd => unescapeGo_short_free rest hd h0,
   fun hd hu => unescapeGo_unknown rest hd hu⟩

/-- Witness for C4: `\n` in the start state appends the newline
character. -/
theorem C4_short_escapes_witness :
    unescapeGo { out := [], pending_surrogate := 0 } [0x5C, 0x6E] =
      unescapeGo { out := [0x0A], pending_surrogate := 0 } [] := by
  have h := (C4_short_escapes { out := [], pending_surrogate := 0 }
    0x6E 0x0A []).2.1 rfl (by decide)
  simpa using h

/-- C5 counterexample: `\u+123` decodes successfully to U+0123 because
`u16::from_str_radix` accepts a leading `+` sign, although `+` is not a
hexadecimal digit and the claim demands `BadEscape`. -/
theorem C5_counterexample :
    unescape [0x5C, 0x75, 0x2B, 0x31, 0x32, 0x33] = Except.ok [0x123] := rfl

/-- C5 (amended): after `\u` exactly the next 4 characters are read
(sentinel-padded) and parsed per `u16::from_str_radix` base 16 — the loop
continues on the input after those 4; a parsed value is below `0x10000`
and every parsed character is a hex digit or the sign `+`; any sequence
holding a character that is neither a hex digit nor `+` fails, and fewer
than 4 remaining characters always fail. -/
theorem C5_u_escape (u : Unescaper) :
    (∀ (c1 c2 c3 c4 : Nat) (rest3 : List Nat),
       unescapeGo u (0x5C :: 0x75 :: c1 :: c2 :: c3 :: c4 :: rest3) =
         match applyU u [c1, c2, c3, c4] with
         | Except.error e => Except.error e
         | Except.ok u2 => unescapeGo u2 rest3) ∧
    (∀ rest : List Nat, rest.length < 4 →
       unescapeGo u (0x5C :: 0x75 :: rest) = Except.error badEscape) ∧
    (∀ (cs : List Nat) (v : Nat), parse_u16 cs = some v →
       v < 0x10000 ∧ ∀ c ∈ cs, hexDigitVal c ≠ none ∨ c = 0x2B) ∧
    (∀ (cs : List Nat), ∀ c ∈ cs, hexDigitVal c = none → c ≠ 0x2B →
       parse_u16 cs = none) ∧
    unescape [0x66, 0x6F, 0x6F, 0x5C, 0x75, 0x32, 0x36, 0x30, 0x33,
        0x62, 0x61, 0x72] =
      Except.ok [0x66, 0x6F, 0x6F, 0x2603, 0x62, 0x61, 0x72] :=
  ⟨fun c1 c2 c3 c4 rest3 => unescapeGo_u_four u c1 c2 c3 c4 rest3,
   fun rest h => unescapeGo_u_short rest h,
   fun _ _ h => parse_u16_some h,
   fun _ _ hc hh hp => parse_u16_badchar hc hh hp,
   rfl⟩

/-- Witness for C5: a truncated `\u31` at end of input fails. -/
theorem C5_u_escape_witness :
    unescapeGo { out := [], pending_surrogate := 0 } [0x5C, 0x75, 0x31] =
      Except.error badEscape :=
  (C5_u_escape { out := [], pending_surrogate := 0 }).2.1 [0x31] (by decide)

/-- C6: while a surrogate is pending, appending a literal character or a
short escape fails with `BadEscape`, end of input with a pending surrogate
fails with `BadEscape`, and a successful end-of-input step implies the
pending slot is zero — a pending surrogate is never silently dropped. -/
theorem C6_pending_invariant :
    (∀ (u : Unescaper) (c : Nat), u.pending_surrogate ≠ 0 →
       push_char u c = Except.error badEscape) ∧
    (∀ (u : Unescaper) (c : Nat) (rest : List Nat), u.pending_surrogate ≠ 0 →
       c ≠ 0x5C → unescapeGo u (c :: rest) = Except.error badEscape) ∧
    (∀ (u : Unescaper) (d m : Nat) (rest : List Nat),
       u.pending_surrogate ≠ 0 → escShortMap d = some m →
       unescapeGo u (0x5C :: d :: rest) = Except.error badEscape) ∧
    (∀ u : Unescaper, u.pending_surrogate ≠ 0 →
       unescapeGo u [] = Except.error badEscape) ∧
    (∀ (u : Unescaper) (r : List Nat), unescapeGo u [] = Except.ok r →
       u.pending_surrogate = 0) :=
  ⟨fun _ c h => push_char_pending c h,
   fun _ _ rest h hc => unescapeGo_literal_pending rest hc h,
   fun _ _ _ rest h hd => unescapeGo_short_pending rest hd h,
   fun _ h => unescapeGo_nil_pending h,
   fun _ _ h => unescapeGo_nil_ok h⟩

/-- Witness for C6: end of input with the high surrogate 0xD83D pending
fails. -/
theorem C6_pending_invariant_witness :
    unescapeGo { out := [], pending_surrogate := 0xD83D } [] =
      Except.error badEscape :=
  C6_pending_invariant.2.2.2.1 { out := [], pending_surrogate := 0xD83D }
    (by decide)

/-- C7 counterexample: a safe-marked string takes the fast path even under
a custom mode, so `write_escaped` returns `Ok` there instead of always
failing. -/
theorem C7_counterexample :
    write_escaped (fun _ => none) [] (AutoEscape.Custom "foo")
        (Value.VString [0x78] StringType.Safe) = (Except.ok (), [0x78]) := rfl

/-- C7 (amended): for every value that is not a safe-marked string,
dispatch under `Custom(name)` fails with an `InvalidOperation` error whose
message contains the custom mode's name, and writes nothing. -/
theorem C7_custom_mode (ser : Value → Option (List Nat)) (out : List Nat)
    (name : String) (v : Value)
    (h : ∀ s : List Nat, v ≠ Value.VString s StringType.Safe) :
    write_escaped ser out (AutoEscape.Custom name) v =
      (Except.error (invalid_autoescape name), out) ∧
    (invalid_autoescape name).kind = ErrorKind.InvalidOperation ∧
    ∃ pre suf : String, (invalid_autoescape name).message =
      pre ++ name ++ suf := by
  refine ⟨?_, rfl,
    "Default formatter does not know how to format to custom format '",
    "'", rfl⟩
  cases v with
  | VUndefined => rfl
  | VNone => rfl
  | VBool b => rfl
  | VNumber n => rfl
  | VOther disp => rfl
  | VString s ty =>
    cases ty with
    | Normal => rfl
    | Safe => exact absurd rfl (h s)

/-- Witness for C7 at a number value and the custom mode name `foo`. -/
theorem C7_custom_mode_witness :
    write_escaped (fun _ => none) [] (AutoEscape.Custom "foo")
        (Value.VNumber 3) =
      (Except.error (invalid_autoescape "foo"), ([] : List Nat)) ∧
    (invalid_autoescape "foo").kind = ErrorKind.InvalidOperation ∧
    ∃ pre suf : String, (invalid_autoescape "foo").message =
      pre ++ "foo" ++ suf :=
  C7_custom_mode (fun _ => none) [] "foo" (Value.VNumber 3)
    (fun _ h => Value.noConfusion h)

/-- C8 counterexample: the empty needle does not return index 0 — the
source's `slice::windows(0)` panics (modelled as the error branch). -/
theorem C8_counterexample : memstr [0x61] [] = Except.error () := rfl

/-- C8 (amended): for every nonempty needle, `memstr` returns the first
index whose window of the haystack equals the needle and `none` when no
window matches; the empty needle panics in `slice::windows` instead of
matching at index 0. -/
theorem C8_memstr (h n : List Nat) (hn : n ≠ []) :
    (∀ i : Nat, memstr h n = Except.ok (some i) →
       i + n.length ≤ h.length ∧ (h.drop i).take n.length = n ∧
       ∀ j : Nat, j < i → (h.drop j).take n.length ≠ n) ∧
    (memstr h n = Except.ok none →
       ∀ j : Nat, j + n.length ≤ h.length → (h.drop j).take n.length ≠ n) := by
  have hsize : 1 ≤ n.length := by
    cases n with
    | nil => exact absurd rfl hn
    | cons a l => simp
  have hlen0 : ¬ n.length = 0 := by omega
  constructor
  · intro i hok
    unfold memstr at hok
    rw [if_neg hlen0] at hok
    injection hok with hok
    obtain ⟨_, ⟨x, hx, hpx⟩, hearlier⟩ := findIdx?_some_char _ _ 0 i hok
    rw [Nat.sub_zero] at hx
    rw [windowsGo_getElem hsize h i] at hx
    by_cases hcond : i + n.length ≤ h.length
    · rw [if_pos hcond] at hx
      injection hx with hx
      have hxn : x = n := eq_of_beq hpx
      refine ⟨hcond, by rw [hx, hxn], ?_⟩
      intro j hj hjeq
      have hjcond : j + n.length ≤ h.length := by omega
      have hwin : (windowsGo n.length h)[j]? =
          some ((h.drop j).take n.length) := by
        rw [windowsGo_getElem hsize h j, if_pos hjcond]
      have hfalse := hearlier j _ (by omega) hwin
      rw [hjeq] at hfalse
      simp at hfalse
    · rw [if_neg hcond] at hx
      exact absurd hx (by simp)
  · intro hok j hj
    unfold memstr at hok
    rw [if_neg hlen0] at hok
    injection hok with hok
    have hwin : (windowsGo n.length h)[j]? =
        some ((h.drop j).take n.length) := by
      rw [windowsGo_getElem hsize h j, if_pos hj]
    have hfalse := findIdx?_none_char _ _ 0 hok _ (List.getElem?_mem hwin)
    intro heq
    rw [heq] at hfalse
    simp at hfalse

/-- Witness for C8: searching `[2]` in `[1, 2, 3]` finds index 1 with no
earlier match. -/
theorem C8_memstr_witness :
    1 + ([2] : List Nat).length ≤ ([1, 2, 3] : List Nat).length ∧
    (([1, 2, 3] : List Nat).drop 1).take ([2] : List Nat).length = [2] ∧
    ∀ j : Nat, j < 1 →
      (([1, 2, 3] : List Nat).drop j).take ([2] : List Nat).length ≠ [2] :=
  (C8_memstr [1, 2, 3] [2] (by decide)).1 1 rfl

/-- C9: the output of `HtmlEscape` holds none of the five characters
`< > " ' /`, and every `&` in the output begins an occurrence of one of
the six replacement entities. -/
theorem C9_output_clean (s : List Nat) :
    (∀ b ∈ HtmlEscape s, ¬ forbiddenByte b) ∧
    (∀ i : Nat, (HtmlEscape s)[i]? = some bAmp →
       ∃ e t : List Nat, isEntity e ∧ (HtmlEscape s).drop i = e ++ t) :=
  cleanOut_HtmlEscape s

/-- Witness for C9: in the escape of `<&`, the `&` at index 4 begins an
entity. -/
theorem C9_output_clean_witness :
    (∀ b ∈ HtmlEscape [0x3C, 0x26], ¬ forbiddenByte b) ∧
    (∃ e t : List Nat, isEntity e ∧
      (HtmlEscape [0x3C, 0x26]).drop 4 = e ++ t) :=
  ⟨(C9_output_clean [0x3C, 0x26]).1,
   (C9_output_clean [0x3C, 0x26]).2 4 (by decide)⟩

/-- C10: under `AutoEscape::None`, a non-string value is written as its
default stringification and the call returns `Ok`. -/
theorem C10_none_mode (ser : Value → Option (List Nat)) (out : List Nat)
    (v : Value)
    (h : ∀ (s : List Nat) (ty : StringType), v ≠ Value.VString s ty) :
    write_escaped ser out AutoEscape.None v =
      (Except.ok (), out ++ v.display) := by
  cases v with
  | VUndefined => rfl
  | VNone => rfl
  | VBool b => rfl
  | VNumber n => rfl
  | VOther disp => rfl
  | VString s ty => exact absurd rfl (h s ty)

/-- Witness for C10 at an opaque value. -/
theorem C10_none_mode_witness :
    write_escaped (fun _ => none) [] AutoEscape.None
        (Value.VOther [0x61, 0x62]) =
      (Except.ok (), [] ++ (Value.VOther [0x61, 0x62]).display) :=
  C10_none_mode (fun _ => none) [] (Value.VOther [0x61, 0x62])
    (fun _ _ h => Value.noConfusion h)
